import Mathlib

/-!
Shallow embedding of `src/reversion/revisions.py` (django-reversion's revision
management core): the version adapter, the revision-context stack frame with its
fork/join protocol, the thread-local revision context manager (stack plus
per-database open-count map), and the revision manager's relationship follower
and signal receiver.

Python dicts are modelled as insertion-ordered association lists (`dictUpdate`
mirrors `d[k] = v`: overwrite in place, append if fresh), Python sets of visited
objects as duplicate-free lists, exceptions as `Except RevisionError`, and the
mutable stack as explicit state passing on `RevisionContextManagerState` (the
head of `stack` is the top of the stack, Python's `_stack[-1]`).  External
collaborators (the Django serialization codec, `force_text` on model instances,
and the duck-typed relation resolution in `VersionAdapter.get_followed_relations`)
are section parameters, per the spec's external-interface boundary.
-/

namespace Reversion

/-- Database alias used for `transaction.atomic(using=db)`; `none` models Python's `db=None`. -/
abbrev Db := Option Nat

/-- Opaque user reference (`django.contrib.auth` user, not part of this core). -/
abbrev UserRef := Nat

/-- Opaque meta-model instance appended by `add_meta` (`cls(**kwargs)`). -/
abbrev MetaObj := Nat

/-- Django signal identity (`post_save`, `pre_delete`, ...), modelled as a tag. -/
abbrev Signal := Nat

/-- The `post_save` signal, the default entry of `VersionAdapter.signals`. -/
def post_save : Signal := 0

/-- Model-class identity (`obj.__class__`), modelled as a tag. -/
abbrev ModelCls := Nat

/-- Python dict assignment `d[k] = v` on an insertion-ordered association list:
overwrite in place if the key is present, append otherwise. -/
def dictUpdate {κ ν : Type} [DecidableEq κ] (k : κ) (v : ν) : List (κ × ν) → List (κ × ν)
  | [] => [(k, v)]
  | (k2, v2) :: rest => if k2 = k then (k, v) :: rest else (k2, v2) :: dictUpdate k v rest

/-- Python dict lookup `d.get(k)` on an association list. -/
def dictLookup {κ ν : Type} [DecidableEq κ] (k : κ) : List (κ × ν) → Option ν
  | [] => none
  | (k2, v2) :: rest => if k2 = k then some v2 else dictLookup k rest

/-- The keys of an association list, in order. -/
def dictKeys {κ ν : Type} (l : List (κ × ν)) : List κ := l.map Prod.fst

/-- Django model meta options: the `(app_label, model_name)` pair read off
`obj._meta` or `obj._meta.concrete_model._meta`. -/
structure ModelOpts where
  app_label : String
  model_name : String
  deriving DecidableEq, Repr

/-- A Django model instance as seen by this core: its class, primary key,
own and concrete meta options, and `obj._state.db`. -/
structure Entity where
  cls : ModelCls
  pk : Option Nat
  opts : ModelOpts
  concrete_opts : ModelOpts
  state_db : Db
  deriving DecidableEq, Repr

/-- Django's `force_text` applied to a primary key (`str(None) = "None"`). -/
def force_text : Option Nat → String
  | none => "None"
  | some n => toString n

/-- The errors raised by this module: `RevisionManagementError` and
`RegistrationError` from `reversion.errors`. -/
inductive RevisionError where
  | revisionManagement (msg : String)
  | registration (msg : String)
  deriving DecidableEq, Repr

/-- Adapter class for serializing a registered model (configuration fields of
`VersionAdapter`; `fields`/`exclude`/`follow` drive external Django machinery
and are kept for fidelity of the record). -/
structure VersionAdapter where
  model : ModelCls
  fields : Option (List String) := none
  exclude : List String := []
  follow : List String := []
  format : String := "json"
  for_concrete_model : Bool := true
  signals : List Signal := [post_save]
  eager_signals : List Signal := []
  deriving DecidableEq, Repr

namespace VersionAdapter

/-- `get_serialization_format`: returns the adapter's format name. -/
def get_serialization_format (self : VersionAdapter) : String := self.format

/-- `get_all_signals`: `chain(self.signals, self.eager_signals)`. -/
def get_all_signals (self : VersionAdapter) : List Signal :=
  self.signals ++ self.eager_signals

/-- `get_version_id`: the `(app_label, model_name, force_text(obj.pk))` triple,
using the concrete model's meta when `for_concrete_model` is set. -/
def get_version_id (self : VersionAdapter) (obj : Entity) : String × String × String :=
  let opts := if self.for_concrete_model then obj.concrete_opts else obj.opts
  (opts.app_label, opts.model_name, force_text obj.pk)

end VersionAdapter

/-- The object-identity key `(app_label, model_name, object_id)` under which a
capture is stored in a registry's object set. -/
abbrev VersionKey := String × String × String

/-- The dict of version data built by `VersionAdapter.get_version_data`. -/
structure VersionData where
  app_label : String
  model_name : String
  object_id : String
  db : Db
  format : String
  serialized_data : String
  object_repr : String
  deriving DecidableEq, Repr

/-- One value of a frame's object set: either a live model instance (deferred
capture) or the pre-serialized version-data dict (eager capture); the source
distinguishes the two by `isinstance(obj, dict)`. -/
inductive Capture where
  | live (obj : Entity)
  | serialized (data : VersionData)
  deriving DecidableEq, Repr

/-- One registry's object set: object-identity key to capture. -/
abbrev ObjectsDict := List (VersionKey × Capture)

/-- A frame's `manager_objects`: revision-manager (identified by its unique
slug) to object set. -/
abbrev ManagerObjects := List (String × ObjectsDict)

/-- One nesting level of the revision-context stack
(`RevisionContextStackFrame.__init__`): block-scoped flags and revision-scoped
data. -/
structure RevisionContextStackFrame where
  manage_manually : Bool
  is_invalid : Bool
  user : Option UserRef
  comment : String
  ignore_duplicates : Bool
  manager_objects : ManagerObjects
  meta : List MetaObj
  deriving DecidableEq, Repr

namespace RevisionContextStackFrame

/-- `fork(manage_manually)`: the frame pushed for a nested scope.  The source
passes `manage_manually` fresh and `self.is_invalid` through, and copies the
revision-scoped fields (`objects.copy()` per registry map and `meta.copy()`;
under the embedding's value semantics those copies are the values themselves). -/
def fork (self : RevisionContextStackFrame) (manage_manually : Bool) :
    RevisionContextStackFrame :=
  { manage_manually := manage_manually
    is_invalid := self.is_invalid
    user := self.user
    comment := self.comment
    ignore_duplicates := self.ignore_duplicates
    manager_objects := self.manager_objects
    meta := self.meta }

/-- `join(other_frame)`: copy back all revision-scoped properties from the
child frame unless the child was invalidated. -/
def join (self other_frame : RevisionContextStackFrame) :
    RevisionContextStackFrame :=
  if other_frame.is_invalid then self
  else
    { self with
      user := other_frame.user
      comment := other_frame.comment
      ignore_duplicates := other_frame.ignore_duplicates
      manager_objects := other_frame.manager_objects
      meta := other_frame.meta }

end RevisionContextStackFrame

/-- Per-type registration state of a `RevisionManager`: its unique slug (the
identity under which it keys object sets) and its `_registered_models` map. -/
structure RevisionManager where
  manager_slug : String
  registered_models : List (ModelCls × VersionAdapter)
  deriving DecidableEq, Repr

namespace RevisionManager

/-- `is_registered(model)`: membership in `_registered_models`. -/
def is_registered (self : RevisionManager) (model : ModelCls) : Bool :=
  (dictLookup model self.registered_models).isSome

/-- `get_adapter(model)`: the registered adapter, or `RegistrationError`. -/
def get_adapter (self : RevisionManager) (model : ModelCls) :
    Except RevisionError VersionAdapter :=
  match dictLookup model self.registered_models with
  | some adapter => .ok adapter
  | none => .error (.registration
      (toString model ++ " has not been registered with django-reversion"))

end RevisionManager

/-- Thread-local state of `RevisionContextManager`: the frame stack (head is
the top, Python's `_stack[-1]`) and the per-database open-count map
`_db_depths` (a `defaultdict(int)`). -/
structure RevisionContextManagerState where
  stack : List RevisionContextStackFrame
  db_depths : List (Db × Int)
  deriving DecidableEq, Repr

/-- The payload of one `post_revision_context_end` signal send. -/
structure RevisionEndEvent where
  sender : String
  objects : List Entity
  serialized_objects : List VersionData
  user : Option UserRef
  comment : String
  meta : List MetaObj
  ignore_duplicates : Bool
  db : Db
  deriving DecidableEq, Repr

namespace RevisionContextManager

/-- Message of the `RevisionManagementError` raised by `_current_frame`. -/
def no_active_msg : String := "There is no active revision for this thread"

/-- `is_active()`: whether the stack is non-empty. -/
def is_active (s : RevisionContextManagerState) : Bool := !s.stack.isEmpty

/-- The `_current_frame` property: the top frame, or `RevisionManagementError`
when the stack is empty. -/
def current_frame (s : RevisionContextManagerState) :
    Except RevisionError RevisionContextStackFrame :=
  match s.stack with
  | [] => .error (.revisionManagement no_active_msg)
  | f :: _ => .ok f

/-- Read of `_db_depths[db]` with the `defaultdict(int)` default of `0`. -/
def depth_of (s : RevisionContextManagerState) (db : Db) : Int :=
  (dictLookup db s.db_depths).getD 0

/-- `_start(manage_manually, db)`: push a fork of the top frame, or a fresh
root frame with default revision-scoped fields, then increment the open count
of `db`. -/
def start (s : RevisionContextManagerState) (manage_manually : Bool) (db : Db) :
    RevisionContextManagerState :=
  let frame := match s.stack with
    | f :: _ => f.fork manage_manually
    | [] =>
      { manage_manually := manage_manually
        is_invalid := false
        user := none
        comment := ""
        ignore_duplicates := false
        manager_objects := []
        meta := [] }
  { stack := frame :: s.stack
    db_depths := dictUpdate db (depth_of s db + 1) s.db_depths }

/-- `_invalidate()`: set `is_invalid` on the current frame. -/
def invalidate (s : RevisionContextManagerState) :
    Except RevisionError RevisionContextManagerState :=
  match s.stack with
  | [] => .error (.revisionManagement no_active_msg)
  | f :: rest => .ok { s with stack := { f with is_invalid := true } :: rest }

/-- The `post_revision_context_end` sends performed by `_end` for one frame:
one event per entry of `manager_objects`, partitioning each object set's values
into live instances (`not isinstance(obj, dict)`) and pre-serialized dicts. -/
def frame_events (f : RevisionContextStackFrame) (db : Db) : List RevisionEndEvent :=
  f.manager_objects.map fun mo =>
    { sender := mo.1
      objects := mo.2.filterMap fun kv =>
        match kv.2 with
        | .live obj => some obj
        | .serialized _ => none
      serialized_objects := mo.2.filterMap fun kv =>
        match kv.2 with
        | .serialized data => some data
        | .live _ => none
      user := f.user
      comment := f.comment
      meta := f.meta
      ignore_duplicates := f.ignore_duplicates
      db := db }

/-- Deliver events to a receiver in order, stopping after the first delivery
whose receiver raises (`recv` returns `false`); returns the delivered events
and whether all deliveries succeeded. -/
def send_all (recv : RevisionEndEvent → Bool) :
    List RevisionEndEvent → List RevisionEndEvent × Bool
  | [] => ([], true)
  | ev :: rest =>
    if recv ev then
      let r := send_all recv rest
      (ev :: r.1, r.2)
    else ([ev], false)

/-- `_end(db)`: read the current frame (raising if the stack is empty),
decrement the open count of `db`; if it reached zero and the frame is not
invalidated, send one `post_revision_context_end` event per registry object
set; finally (whether or not a receiver raised) pop the frame and, if the
stack is still non-empty, join the popped frame into the new top.  Returns the
delivered events, whether every receiver returned normally (a `false` means
the receiver's exception propagates to the caller after the pop and join), and
the final state. -/
def end_revision (recv : RevisionEndEvent → Bool) (s : RevisionContextManagerState)
    (db : Db) :
    Except RevisionError (List RevisionEndEvent × Bool × RevisionContextManagerState) :=
  match s.stack with
  | [] => .error (.revisionManagement no_active_msg)
  | stack_frame :: rest =>
    let depths := dictUpdate db (depth_of s db - 1) s.db_depths
    let events :=
      if (dictLookup db depths).getD 0 = 0 ∧ stack_frame.is_invalid = false then
        frame_events stack_frame db
      else []
    let sent := send_all recv events
    let stack := match rest with
      | [] => []
      | top :: deeper => top.join stack_frame :: deeper
    .ok (sent.1, sent.2, { stack := stack, db_depths := depths })

/-- `RevisionContext.__exit__` without the wrapped transaction: when an
exception occurred in the block, `_invalidate` then (in a `finally`) `_end`;
a failure of `_invalidate` is superseded by a failure of `_end` (both can only
be the no-active-revision error, on an empty stack). -/
def context_exit (recv : RevisionEndEvent → Bool) (s : RevisionContextManagerState)
    (db : Db) (exc_occurred : Bool) :
    Except RevisionError (List RevisionEndEvent × Bool × RevisionContextManagerState) :=
  if exc_occurred then
    match invalidate s with
    | .ok s1 => end_revision recv s1 db
    | .error e =>
      match end_revision recv s db with
      | .error e2 => .error e2
      | .ok _ => .error e
  else end_revision recv s db

/-- `is_managing_manually()`: the top frame's `manage_manually`. -/
def is_managing_manually (s : RevisionContextManagerState) :
    Except RevisionError Bool :=
  (current_frame s).map (·.manage_manually)

/-- `is_invalid()`: the top frame's `is_invalid`. -/
def is_invalid (s : RevisionContextManagerState) : Except RevisionError Bool :=
  (current_frame s).map (·.is_invalid)

/-- `set_user(user)`: write the top frame's `user`. -/
def set_user (s : RevisionContextManagerState) (user : Option UserRef) :
    Except RevisionError RevisionContextManagerState :=
  match s.stack with
  | [] => .error (.revisionManagement no_active_msg)
  | f :: rest => .ok { s with stack := { f with user := user } :: rest }

/-- `get_user()`: read the top frame's `user`. -/
def get_user (s : RevisionContextManagerState) : Except RevisionError (Option UserRef) :=
  (current_frame s).map (·.user)

/-- `set_comment(comment)`: write the top frame's `comment`. -/
def set_comment (s : RevisionContextManagerState) (comment : String) :
    Except RevisionError RevisionContextManagerState :=
  match s.stack with
  | [] => .error (.revisionManagement no_active_msg)
  | f :: rest => .ok { s with stack := { f with comment := comment } :: rest }

/-- `get_comment()`: read the top frame's `comment`. -/
def get_comment (s : RevisionContextManagerState) : Except RevisionError String :=
  (current_frame s).map (·.comment)

/-- `set_ignore_duplicates(ignore_duplicates)`: write the top frame's flag. -/
def set_ignore_duplicates (s : RevisionContextManagerState) (ignore_duplicates : Bool) :
    Except RevisionError RevisionContextManagerState :=
  match s.stack with
  | [] => .error (.revisionManagement no_active_msg)
  | f :: rest =>
    .ok { s with stack := { f with ignore_duplicates := ignore_duplicates } :: rest }

/-- `get_ignore_duplicates()`: read the top frame's flag. -/
def get_ignore_duplicates (s : RevisionContextManagerState) : Except RevisionError Bool :=
  (current_frame s).map (·.ignore_duplicates)

/-- `add_meta(cls, **kwargs)`: append the constructed meta instance to the top
frame's `meta` list. -/
def add_meta (s : RevisionContextManagerState) (m : MetaObj) :
    Except RevisionError RevisionContextManagerState :=
  match s.stack with
  | [] => .error (.revisionManagement no_active_msg)
  | f :: rest => .ok { s with stack := { f with meta := f.meta ++ [m] } :: rest }

/-- The assignment `manager_objects[revision_manager][version_id] = value` on a
frame's object sets, including the `defaultdict(dict)` creation of a missing
per-registry map. -/
def set_manager_object (mo : ManagerObjects) (slug : String) (key : VersionKey)
    (value : Capture) : ManagerObjects :=
  dictUpdate slug (dictUpdate key value ((dictLookup slug mo).getD [])) mo

/-- `add_to_context(revision_manager, obj)`: look up the adapter (evaluated
first in the source, so an unregistered class raises `RegistrationError` even
with an empty stack), then store the live instance in the top frame under its
version id. -/
def add_to_context (s : RevisionContextManagerState) (rm : RevisionManager)
    (obj : Entity) : Except RevisionError RevisionContextManagerState :=
  match rm.get_adapter obj.cls with
  | .error e => .error e
  | .ok adapter =>
    match s.stack with
    | [] => .error (.revisionManagement no_active_msg)
    | f :: rest =>
      .ok { s with stack :=
        { f with manager_objects :=
            (set_manager_object f.manager_objects rm.manager_slug
              (adapter.get_version_id obj) (.live obj)) } :: rest }

end RevisionContextManager

/-! The relationship follower `RevisionManager._follow_relationships`.  The
traversal is generic in the node type: `pk` models `obj.pk` and `rel` models
the composition `self.get_adapter(obj.__class__).get_followed_relations(obj)`
(duck-typed Django attribute resolution, an external collaborator).  The
source's unbounded Python recursion is modelled with an explicit `fuel` bound
on the recursion depth; on a finite node type a sufficient fuel exists and the
result no longer depends on it (proved below).  The Python `set` of followed
objects is a duplicate-free list threaded through the traversal. -/

section FollowRelationships

variable {α : Type} [DecidableEq α] (pk : α → Option Nat) (rel : α → List α)

/-- The inner `follow(obj)` closure of `_follow_relationships`: return at an
unsaved (`pk is None`) or already-followed object, otherwise add the object
and recurse into each followed relation in order. -/
def followAux : Nat → α → List α → List α
  | 0, _, followed_objects => followed_objects
  | fuel + 1, obj, followed_objects =>
    if pk obj = none ∨ obj ∈ followed_objects then followed_objects
    else (rel obj).foldl (fun acc related => followAux fuel related acc)
      (obj :: followed_objects)

/-- `_follow_relationships(instance)`: run `follow` from the root with an
empty followed set. -/
def follow_relationships (fuel : Nat) (root : α) : List α :=
  followAux pk rel fuel root []

/-- The entities `_follow_relationships` is specified to collect: chains from
the root in which every node has a persisted identity and each step moves
along a followed relation. -/
inductive Reaches (root : α) : α → Prop where
  | refl (h : pk root ≠ none) : Reaches root root
  | tail {a b : α} (ha : Reaches root a) (hb : b ∈ rel a) (hpk : pk b ≠ none) :
      Reaches root b

end FollowRelationships

/-- Termination measure for the follower on a finite node type: the number of
nodes not yet followed. -/
def freshCard {α : Type} [DecidableEq α] [Fintype α] (acc : List α) : Nat :=
  (Finset.univ.filter (fun x : α => x ∉ acc)).card

namespace RevisionContextManager

/-! Eager capture and the signal receiver depend on the external serialization
codec and on relation resolution; both enter as parameters. -/

variable (serialize_codec : String → Entity → String)
variable (entity_repr : Entity → String)
variable (followed_relations : Entity → List Entity)

/-- `VersionAdapter.get_version_data(obj)`: the dict of version data, with the
serialized payload and textual repr produced by the external codec. -/
def get_version_data (adapter : VersionAdapter) (obj : Entity) : VersionData :=
  let vid := adapter.get_version_id obj
  { app_label := vid.1
    model_name := vid.2.1
    object_id := vid.2.2
    db := obj.state_db
    format := adapter.get_serialization_format
    serialized_data := serialize_codec adapter.get_serialization_format obj
    object_repr := entity_repr obj }

/-- `add_to_context_eager(revision_manager, obj)`: for each entity reached by
`_follow_relationships(obj)`, look up its adapter, build its version data, and
store the pre-serialized dict in the top frame under its version id.  The
per-iteration order (adapter lookup before the `_current_frame` access) follows
the source. -/
def add_to_context_eager (fuel : Nat) (s : RevisionContextManagerState)
    (rm : RevisionManager) (obj : Entity) :
    Except RevisionError RevisionContextManagerState :=
  (follow_relationships (fun e => e.pk) followed_relations fuel obj).foldlM
    (fun s1 relation =>
      match rm.get_adapter relation.cls with
      | .error e => .error e
      | .ok adapter =>
        let version_data := get_version_data serialize_codec entity_repr adapter relation
        match s1.stack with
        | [] => .error (.revisionManagement no_active_msg)
        | f :: rest =>
          .ok { s1 with stack :=
            { f with manager_objects :=
                (set_manager_object f.manager_objects rm.manager_slug
                  (adapter.get_version_id relation) (.serialized version_data)) } :: rest })
    s

/-- `RevisionManager._signal_receiver(instance, signal)`: do nothing when no
revision is active or the current frame manages manually; otherwise dispatch
to eager capture for the adapter's `eager_signals` and to deferred capture for
every other signal. -/
def signal_receiver (fuel : Nat) (rm : RevisionManager)
    (s : RevisionContextManagerState) (inst : Entity) (signal : Signal) :
    Except RevisionError RevisionContextManagerState :=
  if is_active s then
    match is_managing_manually s with
    | .error e => .error e
    | .ok mm =>
      if mm then .ok s
      else
        match rm.get_adapter inst.cls with
        | .error e => .error e
        | .ok adapter =>
          if signal ∈ adapter.eager_signals then
            add_to_context_eager serialize_codec entity_repr followed_relations fuel s rm inst
          else add_to_context s rm inst
  else .ok s

/-- The mutations of a child scope's revision-scoped state considered by the
fork isolation property: deferred capture, eager capture, and meta append. -/
inductive CaptureOp where
  | capture (rm : RevisionManager) (obj : Entity)
  | capture_eager (fuel : Nat) (rm : RevisionManager) (obj : Entity)
  | append_meta (m : MetaObj)

/-- Apply one capture-repertoire mutation to the manager state. -/
def apply_capture_op (op : CaptureOp) (s : RevisionContextManagerState) :
    Except RevisionError RevisionContextManagerState :=
  match op with
  | .capture rm obj => add_to_context s rm obj
  | .capture_eager fuel rm obj =>
    add_to_context_eager serialize_codec entity_repr followed_relations fuel s rm obj
  | .append_meta m => add_meta s m

/-- Apply a sequence of capture-repertoire mutations, stopping at the first
raised error. -/
def apply_capture_ops (ops : List CaptureOp) (s : RevisionContextManagerState) :
    Except RevisionError RevisionContextManagerState :=
  ops.foldlM
    (fun s1 op => apply_capture_op serialize_codec entity_repr followed_relations op s1) s

/-- Whether an operation outcome is the no-active-revision failure
(`RevisionManagementError`), as opposed to success or a registration error. -/
def is_no_active_error {β : Type} : Except RevisionError β → Bool
  | .error (.revisionManagement _) => true
  | _ => false

end RevisionContextManager

/-! Helper lemmas about the association-list dict operations. -/

theorem dictLookup_dictUpdate_self {κ ν : Type} [DecidableEq κ] (k : κ) (v : ν) :
    ∀ l : List (κ × ν), dictLookup k (dictUpdate k v l) = some v
  | [] => by simp [dictUpdate, dictLookup]
  | (k2, v2) :: rest => by
    by_cases h : k2 = k
    · simp [dictUpdate, dictLookup, h]
    · simp [dictUpdate, dictLookup, h, dictLookup_dictUpdate_self k v rest]

theorem mem_dictKeys_dictUpdate {κ ν : Type} [DecidableEq κ] (k x : κ) (v : ν) :
    ∀ l : List (κ × ν), x ∈ dictKeys (dictUpdate k v l) → x = k ∨ x ∈ dictKeys l
  | [] => by simp [dictUpdate, dictKeys]
  | (k2, v2) :: rest => by
    by_cases h : k2 = k
    · simp [dictUpdate, dictKeys, h]
    · simp only [dictUpdate, h, if_false, dictKeys, List.map_cons, List.mem_cons]
      intro hx
      rcases hx with hx | hx
      · exact Or.inr (Or.inl hx)
      · rcases mem_dictKeys_dictUpdate k x v rest hx with hx | hx
        · exact Or.inl hx
        · exact Or.inr (Or.inr hx)

theorem dictKeys_dictUpdate_nodup {κ ν : Type} [DecidableEq κ] (k : κ) (v : ν) :
    ∀ l : List (κ × ν), (dictKeys l).Nodup → (dictKeys (dictUpdate k v l)).Nodup
  | [] => by simp [dictUpdate, dictKeys]
  | (k2, v2) :: rest => by
    intro hnodup
    simp only [dictKeys, List.map_cons, List.nodup_cons] at hnodup
    by_cases h : k2 = k
    · subst h
      simpa [dictUpdate, dictKeys] using hnodup
    · simp only [dictUpdate, h, if_false, dictKeys, List.map_cons, List.nodup_cons]
      refine ⟨fun hmem => ?_, dictKeys_dictUpdate_nodup k v rest hnodup.2⟩
      rcases mem_dictKeys_dictUpdate k k2 v rest hmem with hk | hk
      · exact h hk
      · exact hnodup.1 hk

theorem countP_key_dictUpdate {κ ν : Type} [DecidableEq κ] (k : κ) (v : ν) :
    ∀ l : List (κ × ν), (dictKeys l).Nodup →
      (dictUpdate k v l).countP (fun p => decide (p.1 = k)) = 1
  | [] => by simp [dictUpdate, List.countP_cons]
  | (k2, v2) :: rest => by
    intro hnodup
    simp only [dictKeys, List.map_cons, List.nodup_cons] at hnodup
    by_cases h : k2 = k
    · subst h
      have hzero : rest.countP (fun p => decide (p.1 = k2)) = 0 := by
        rw [List.countP_eq_zero]
        intro p hp
        simp only [decide_eq_true_eq]
        intro hpk
        exact hnodup.1 (hpk ▸ List.mem_map_of_mem Prod.fst hp)
      simp [dictUpdate, List.countP_cons, hzero]
    · simp [dictUpdate, h, List.countP_cons,
        countP_key_dictUpdate k v rest hnodup.2]

namespace RevisionContextManager

/-- Delivering to a receiver that never raises delivers every event. -/
theorem send_all_of_recv_ok (l : List RevisionEndEvent) :
    send_all (fun _ => true) l = (l, true) := by
  induction l with
  | nil => rfl
  | cons ev rest ih => simp [send_all, ih]

end RevisionContextManager

/-- C1 (counterexample): forking an invalidated frame yields a child whose
invalidated flag is `true`, not the reset-to-`false` the claim states: `fork`
passes `self.is_invalid` to the child frame. -/
theorem fork_of_invalidated_frame_is_invalid :
    (RevisionContextStackFrame.fork
      { manage_manually := false, is_invalid := true, user := none, comment := "",
        ignore_duplicates := false, manager_objects := [], meta := [] }
      false).is_invalid = true := rfl

/-- C1 (amended): forking a frame copies the parent's invalidated flag into the
child: the child starts non-invalidated exactly when the parent is
non-invalidated, and a fork of an invalidated parent is itself invalidated. -/
theorem fork_copies_invalid_flag (f : RevisionContextStackFrame) (m : Bool) :
    (f.fork m).is_invalid = f.is_invalid := rfl

/-- C3: joining a non-invalidated child overwrites every revision-scoped field
of the parent (user, comment, duplicate-suppression flag, object sets,
metadata) with the child's values while keeping the parent's block-scoped
fields, and joining an invalidated child leaves the parent entirely
unchanged. -/
theorem join_overwrites_unless_child_invalid
    (parent child : RevisionContextStackFrame) :
    (child.is_invalid = false →
      parent.join child =
        { parent with
          user := child.user
          comment := child.comment
          ignore_duplicates := child.ignore_duplicates
          manager_objects := child.manager_objects
          meta := child.meta }) ∧
    (child.is_invalid = true → parent.join child = parent) := by
  constructor
  · intro h
    simp [RevisionContextStackFrame.join, h]
  · intro h
    simp [RevisionContextStackFrame.join, h]

/-- Witness for C3 at concrete frames: an invalidated child leaves the parent
untouched. -/
theorem join_overwrites_unless_child_invalid_witness :
    (RevisionContextStackFrame.is_invalid ⟨true, true, none, "c", true, [], [3]⟩ = true) ∧
    RevisionContextStackFrame.join ⟨false, false, some 1, "p", false, [], [2]⟩
      ⟨true, true, none, "c", true, [], [3]⟩ = ⟨false, false, some 1, "p", false, [], [2]⟩ :=
  ⟨rfl, (join_overwrites_unless_child_invalid _ _).2 rfl⟩

/-- C2: when the frame on top of the stack at `_end(db)` is invalidated, that
call delivers no `post_revision_context_end` event (whatever the open count
does), and a scope exit with an exception — which invalidates before ending —
likewise delivers nothing. -/
theorem end_on_invalidated_frame_emits_nothing
    (recv : RevisionEndEvent → Bool) (s : RevisionContextManagerState) (db : Db)
    (f : RevisionContextStackFrame) (rest : List RevisionContextStackFrame)
    (hstack : s.stack = f :: rest) :
    (f.is_invalid = true →
      (RevisionContextManager.end_revision recv s db).map (fun r => (r.1, r.2.1))
        = .ok ([], true)) ∧
    (RevisionContextManager.context_exit recv s db true).map (fun r => (r.1, r.2.1))
        = .ok ([], true) := by
  obtain ⟨stk, depths⟩ := s
  replace hstack : stk = f :: rest := hstack
  subst hstack
  constructor
  · intro hinv
    simp [RevisionContextManager.end_revision, hinv, RevisionContextManager.send_all,
      Except.map]
  · simp [RevisionContextManager.context_exit, RevisionContextManager.invalidate,
      RevisionContextManager.end_revision, RevisionContextManager.send_all, Except.map]

/-- Witness for C2 at a concrete one-frame state with an invalidated top
frame. -/
theorem end_on_invalidated_frame_emits_nothing_witness :
    (RevisionContextManagerState.stack ⟨[⟨false, true, none, "", false, [], []⟩], [(none, 1)]⟩
        = [⟨false, true, none, "", false, [], []⟩]) ∧
    (RevisionContextStackFrame.is_invalid ⟨false, true, none, "", false, [], []⟩ = true) ∧
    (RevisionContextManager.end_revision (fun _ => true)
        ⟨[⟨false, true, none, "", false, [], []⟩], [(none, 1)]⟩ none).map
        (fun r => (r.1, r.2.1)) = .ok ([], true) := by
  refine ⟨rfl, rfl, ?_⟩
  exact (end_on_invalidated_frame_emits_nothing (fun _ => true) _ none _ [] rfl).1 rfl

/-- C10: whatever the receiver of the revision-ready event does (including
raising partway through the sends), a call to `_end(db)` on a non-empty stack
pops exactly one frame — the new stack is one shorter — and, when the stack
stays non-empty, the popped frame has been joined into the new top. -/
theorem end_pops_and_joins_despite_receiver_failure
    (recv : RevisionEndEvent → Bool) (s : RevisionContextManagerState) (db : Db)
    (f : RevisionContextStackFrame) (rest : List RevisionContextStackFrame)
    (hstack : s.stack = f :: rest) :
    ∃ events ok s1,
      RevisionContextManager.end_revision recv s db = .ok (events, ok, s1) ∧
      s1.stack.length + 1 = s.stack.length ∧
      (rest = [] → s1.stack = []) ∧
      (∀ top deeper, rest = top :: deeper → s1.stack = top.join f :: deeper) := by
  obtain ⟨stk, depths⟩ := s
  replace hstack : stk = f :: rest := hstack
  subst hstack
  cases rest with
  | nil =>
    refine ⟨_, _, _, rfl, by simp [RevisionContextManager.end_revision], fun _ => ?_, ?_⟩
    · simp [RevisionContextManager.end_revision]
    · intro top deeper h
      cases h
  | cons top deeper =>
    refine ⟨_, _, _, rfl, by simp [RevisionContextManager.end_revision], fun h => ?_, ?_⟩
    · cases h
    · intro top1 deeper1 h
      cases h
      simp [RevisionContextManager.end_revision]

/-- Witness for C10 at a concrete two-frame state with a receiver that raises
on every event: the frame is still popped and joined. -/
theorem end_pops_and_joins_despite_receiver_failure_witness :
    (RevisionContextManagerState.stack
        ⟨[⟨false, false, some 7, "inner", false, [], []⟩,
          ⟨false, false, none, "outer", false, [], []⟩], [(none, 1)]⟩
      = ⟨false, false, some 7, "inner", false, [], []⟩ ::
          [⟨false, false, none, "outer", false, [], []⟩]) ∧
    (∃ events ok s1,
      RevisionContextManager.end_revision (fun _ => false)
          ⟨[⟨false, false, some 7, "inner", false, [], []⟩,
            ⟨false, false, none, "outer", false, [], []⟩], [(none, 1)]⟩ none
        = .ok (events, ok, s1) ∧
      s1.stack.length + 1 = 2 ∧
      ([(⟨false, false, none, "outer", false, [], []⟩ : RevisionContextStackFrame)] = []
        → s1.stack = []) ∧
      (∀ top deeper,
        [(⟨false, false, none, "outer", false, [], []⟩ : RevisionContextStackFrame)]
          = top :: deeper →
        s1.stack = top.join ⟨false, false, some 7, "inner", false, [], []⟩ :: deeper)) :=
  ⟨rfl,
    end_pops_and_joins_despite_receiver_failure (fun _ => false)
      ⟨[⟨false, false, some 7, "inner", false, [], []⟩,
        ⟨false, false, none, "outer", false, [], []⟩], [(none, 1)]⟩ none
      ⟨false, false, some 7, "inner", false, [], []⟩
      [⟨false, false, none, "outer", false, [], []⟩] rfl⟩

/-- C4: when `_end(db)` takes the open count of `db` from one to zero and the
top frame is not invalidated, it sends — computed from the frame as it stood
before the pop — one revision-ready event per registry holding a (non-empty)
object set, carrying the set's live captures, its pre-serialized captures, and
the frame's user, comment, metadata and duplicate-suppression flag, tagged
with `db`; the frame is then popped (and joined into the remaining top). -/
theorem end_emits_revision_ready
    (s : RevisionContextManagerState) (db : Db)
    (f : RevisionContextStackFrame) (rest : List RevisionContextStackFrame)
    (hstack : s.stack = f :: rest)
    (hdepth : RevisionContextManager.depth_of s db = 1)
    (hvalid : f.is_invalid = false)
    (hnonempty : ∀ p ∈ f.manager_objects, p.2 ≠ []) :
    ∃ s1,
      RevisionContextManager.end_revision (fun _ => true) s db =
        .ok (f.manager_objects.map (fun mo =>
          { sender := mo.1
            objects := mo.2.filterMap (fun kv =>
              match kv.2 with
              | .live obj => some obj
              | .serialized _ => none)
            serialized_objects := mo.2.filterMap (fun kv =>
              match kv.2 with
              | .serialized data => some data
              | .live _ => none)
            user := f.user
            comment := f.comment
            meta := f.meta
            ignore_duplicates := f.ignore_duplicates
            db := db }), true, s1) ∧
      s1.stack.length + 1 = s.stack.length ∧
      (∀ top deeper, rest = top :: deeper → s1.stack = top.join f :: deeper) := by
  obtain ⟨stk, depths⟩ := s
  replace hstack : stk = f :: rest := hstack
  subst hstack
  replace hdepth : (dictLookup db depths).getD 0 = (1 : Int) := hdepth
  have hdec : (dictLookup db (dictUpdate db ((dictLookup db depths).getD 0 - 1) depths)).getD 0
      = (0 : Int) := by
    rw [dictLookup_dictUpdate_self, hdepth]
    rfl
  have hmain : RevisionContextManager.end_revision (fun _ => true)
      ⟨f :: rest, depths⟩ db =
      .ok (RevisionContextManager.frame_events f db, true,
        ⟨(match rest with
          | [] => []
          | top :: deeper => top.join f :: deeper),
         dictUpdate db ((dictLookup db depths).getD 0 - 1) depths⟩) := by
    simp only [RevisionContextManager.end_revision, RevisionContextManager.depth_of]
    rw [if_pos ⟨hdec, hvalid⟩, RevisionContextManager.send_all_of_recv_ok]
  refine ⟨⟨(match rest with
      | [] => []
      | top :: deeper => top.join f :: deeper),
    dictUpdate db ((dictLookup db depths).getD 0 - 1) depths⟩, ?_, ?_, ?_⟩
  · rw [hmain]
    cases rest <;> rfl
  · cases rest <;> rfl
  · intro top deeper h
    cases h
    rfl

/-- Witness for C4 at a concrete one-frame state with one registry whose object
set holds one live and one pre-serialized capture. -/
theorem end_emits_revision_ready_witness :
    (RevisionContextManagerState.stack
        ⟨[⟨false, false, some 9, "done", true,
            [("default",
              [(("app", "m", "1"), Capture.live ⟨0, some 1, ⟨"app", "m"⟩, ⟨"app", "m"⟩, none⟩),
               (("app", "m", "2"),
                Capture.serialized ⟨"app", "m", "2", none, "json", "[]", "obj2"⟩)])],
            [5]⟩], [(none, 1)]⟩
      = [⟨false, false, some 9, "done", true,
            [("default",
              [(("app", "m", "1"), Capture.live ⟨0, some 1, ⟨"app", "m"⟩, ⟨"app", "m"⟩, none⟩),
               (("app", "m", "2"),
                Capture.serialized ⟨"app", "m", "2", none, "json", "[]", "obj2"⟩)])],
            [5]⟩]) ∧
    (RevisionContextManager.depth_of ⟨[⟨false, false, some 9, "done", true,
        [("default",
          [(("app", "m", "1"), Capture.live ⟨0, some 1, ⟨"app", "m"⟩, ⟨"app", "m"⟩, none⟩),
           (("app", "m", "2"),
            Capture.serialized ⟨"app", "m", "2", none, "json", "[]", "obj2"⟩)])],
        [5]⟩], [(none, 1)]⟩ none = 1) ∧
    (RevisionContextManager.end_revision (fun _ => true)
        ⟨[⟨false, false, some 9, "done", true,
            [("default",
              [(("app", "m", "1"), Capture.live ⟨0, some 1, ⟨"app", "m"⟩, ⟨"app", "m"⟩, none⟩),
               (("app", "m", "2"),
                Capture.serialized ⟨"app", "m", "2", none, "json", "[]", "obj2"⟩)])],
            [5]⟩], [(none, 1)]⟩ none).map (fun r => (r.1, r.2.1))
      = .ok ([{ sender := "default"
                objects := [⟨0, some 1, ⟨"app", "m"⟩, ⟨"app", "m"⟩, none⟩]
                serialized_objects := [⟨"app", "m", "2", none, "json", "[]", "obj2"⟩]
                user := some 9
                comment := "done"
                meta := [5]
                ignore_duplicates := true
                db := none }], true) := by
  refine ⟨rfl, rfl, ?_⟩
  obtain ⟨s1, h1, -, -⟩ := end_emits_revision_ready
    ⟨[⟨false, false, some 9, "done", true,
        [("default",
          [(("app", "m", "1"), Capture.live ⟨0, some 1, ⟨"app", "m"⟩, ⟨"app", "m"⟩, none⟩),
           (("app", "m", "2"),
            Capture.serialized ⟨"app", "m", "2", none, "json", "[]", "obj2"⟩)])],
        [5]⟩], [(none, 1)]⟩ none _ [] rfl rfl rfl (by decide)
  rw [h1]
  rfl

/-- C5: capturing two entities with the same object-identity key under the
same registry within one scope leaves exactly one entry for that key in the
scope's per-registry object set, and that entry holds the value of the later
capture. -/
theorem capture_dedup_last_write_wins
    (s : RevisionContextManagerState) (rm : RevisionManager) (obj obj2 : Entity)
    (f : RevisionContextStackFrame) (rest : List RevisionContextStackFrame)
    (hstack : s.stack = f :: rest)
    (a a2 : VersionAdapter)
    (hada : rm.get_adapter obj.cls = .ok a)
    (hada2 : rm.get_adapter obj2.cls = .ok a2)
    (hkey : a2.get_version_id obj2 = a.get_version_id obj)
    (hnodup : (dictKeys ((dictLookup rm.manager_slug f.manager_objects).getD [])).Nodup) :
    ∃ s2 f2 rest2,
      (RevisionContextManager.add_to_context s rm obj).bind
          (fun s1 => RevisionContextManager.add_to_context s1 rm obj2) = .ok s2 ∧
      s2.stack = f2 :: rest2 ∧
      ((dictLookup rm.manager_slug f2.manager_objects).getD []).countP
        (fun p => decide (p.1 = a.get_version_id obj)) = 1 ∧
      dictLookup (a.get_version_id obj)
        ((dictLookup rm.manager_slug f2.manager_objects).getD [])
        = some (.live obj2) := by
  obtain ⟨stk, depths⟩ := s
  replace hstack : stk = f :: rest := hstack
  subst hstack
  have h1 : RevisionContextManager.add_to_context ⟨f :: rest, depths⟩ rm obj
      = .ok ⟨{ f with manager_objects :=
          (dictUpdate rm.manager_slug
            (dictUpdate (a.get_version_id obj) (.live obj)
              ((dictLookup rm.manager_slug f.manager_objects).getD []))
            f.manager_objects) } :: rest, depths⟩ := by
    unfold RevisionContextManager.add_to_context RevisionContextManager.set_manager_object
    rw [hada]
  have h2 : RevisionContextManager.add_to_context
      ⟨{ f with manager_objects :=
          (dictUpdate rm.manager_slug
            (dictUpdate (a.get_version_id obj) (.live obj)
              ((dictLookup rm.manager_slug f.manager_objects).getD []))
            f.manager_objects) } :: rest, depths⟩ rm obj2
      = .ok ⟨{ f with manager_objects :=
          (dictUpdate rm.manager_slug
            (dictUpdate (a2.get_version_id obj2) (.live obj2)
              ((dictLookup rm.manager_slug
                (dictUpdate rm.manager_slug
                  (dictUpdate (a.get_version_id obj) (.live obj)
                    ((dictLookup rm.manager_slug f.manager_objects).getD []))
                  f.manager_objects)).getD []))
            (dictUpdate rm.manager_slug
              (dictUpdate (a.get_version_id obj) (.live obj)
                ((dictLookup rm.manager_slug f.manager_objects).getD []))
              f.manager_objects)) } :: rest, depths⟩ := by
    unfold RevisionContextManager.add_to_context RevisionContextManager.set_manager_object
    rw [hada2]
  rw [hkey, dictLookup_dictUpdate_self, Option.getD_some] at h2
  refine ⟨⟨{ f with manager_objects :=
      (dictUpdate rm.manager_slug
        (dictUpdate (a.get_version_id obj) (.live obj2)
          (dictUpdate (a.get_version_id obj) (.live obj)
            ((dictLookup rm.manager_slug f.manager_objects).getD [])))
        (dictUpdate rm.manager_slug
          (dictUpdate (a.get_version_id obj) (.live obj)
            ((dictLookup rm.manager_slug f.manager_objects).getD []))
          f.manager_objects)) } :: rest, depths⟩,
    { f with manager_objects :=
      (dictUpdate rm.manager_slug
        (dictUpdate (a.get_version_id obj) (.live obj2)
          (dictUpdate (a.get_version_id obj) (.live obj)
            ((dictLookup rm.manager_slug f.manager_objects).getD [])))
        (dictUpdate rm.manager_slug
          (dictUpdate (a.get_version_id obj) (.live obj)
            ((dictLookup rm.manager_slug f.manager_objects).getD []))
          f.manager_objects)) }, rest, ?_, rfl, ?_, ?_⟩
  · rw [h1]
    exact h2
  · rw [dictLookup_dictUpdate_self, Option.getD_some]
    exact countP_key_dictUpdate _ _ _
      (dictKeys_dictUpdate_nodup _ _ _ hnodup)
  · rw [dictLookup_dictUpdate_self, Option.getD_some, dictLookup_dictUpdate_self]

/-- Monadic fold over `Except` preserves an invariant that every step
preserves on success. -/
theorem foldlM_except_preserve {σ β ε : Type} (g : σ → β → Except ε σ) (P : σ → Prop)
    (hg : ∀ s b s1, g s b = .ok s1 → P s → P s1) :
    ∀ (l : List β) (s s1 : σ), l.foldlM g s = .ok s1 → P s → P s1 := by
  intro l
  induction l with
  | nil =>
    intro s s1 h hP
    simp only [List.foldlM_nil] at h
    cases h
    exact hP
  | cons b t ih =>
    intro s s1 h hP
    simp only [List.foldlM_cons] at h
    cases hgb : g s b with
    | error e => rw [hgb] at h; cases h
    | ok s2 =>
      rw [hgb] at h
      exact ih s2 s1 h (hg s b s2 hgb hP)

/-- A successful deferred capture rewrites only the top frame: the rest of the
stack is untouched. -/
theorem add_to_context_stack_tail (s : RevisionContextManagerState)
    (rm : RevisionManager) (obj : Entity) (s1 : RevisionContextManagerState)
    (h : RevisionContextManager.add_to_context s rm obj = .ok s1) :
    s1.stack.tail = s.stack.tail := by
  unfold RevisionContextManager.add_to_context at h
  split at h
  · cases h
  · split at h
    · cases h
    · rename_i heq
      cases h
      simp [heq]

/-- A successful meta append rewrites only the top frame. -/
theorem add_meta_stack_tail (s : RevisionContextManagerState) (m : MetaObj)
    (s1 : RevisionContextManagerState)
    (h : RevisionContextManager.add_meta s m = .ok s1) :
    s1.stack.tail = s.stack.tail := by
  unfold RevisionContextManager.add_meta at h
  split at h
  · cases h
  · rename_i heq
    cases h
    simp [heq]

/-- A successful eager capture rewrites only top frames: the tail of the stack
it started from is untouched. -/
theorem add_to_context_eager_stack_tail
    (serialize_codec : String → Entity → String) (entity_repr : Entity → String)
    (followed_relations : Entity → List Entity) (fuel : Nat)
    (s : RevisionContextManagerState) (rm : RevisionManager) (obj : Entity)
    (s1 : RevisionContextManagerState)
    (h : RevisionContextManager.add_to_context_eager serialize_codec entity_repr
        followed_relations fuel s rm obj = .ok s1) :
    s1.stack.tail = s.stack.tail := by
  unfold RevisionContextManager.add_to_context_eager at h
  refine foldlM_except_preserve _ (fun s2 => s2.stack.tail = s.stack.tail) ?_ _ s s1 h rfl
  intro s2 rel s3 hstep hP
  rw [← hP]
  clear hP h
  split at hstep
  · cases hstep
  · split at hstep
    · cases hstep
    · rename_i heq
      cases hstep
      simp [heq]

/-- C7: after pushing a forked child frame with `_start`, any sequence of
capture-repertoire mutations (deferred capture, eager capture, meta append)
running against the child leaves the parent frame — indeed the whole rest of
the stack — unchanged: the object-set maps and meta list were copied on fork,
so nothing short of an explicit join writes back. -/
theorem child_mutations_preserve_parent
    (serialize_codec : String → Entity → String) (entity_repr : Entity → String)
    (followed_relations : Entity → List Entity)
    (s : RevisionContextManagerState) (m : Bool) (db : Db)
    (ops : List RevisionContextManager.CaptureOp)
    (f : RevisionContextStackFrame) (rest : List RevisionContextStackFrame)
    (s1 : RevisionContextManagerState)
    (hstack : s.stack = f :: rest)
    (happly : RevisionContextManager.apply_capture_ops serialize_codec entity_repr
        followed_relations ops (RevisionContextManager.start s m db) = .ok s1) :
    s1.stack.tail = f :: rest := by
  have hbase : (RevisionContextManager.start s m db).stack.tail = f :: rest := by
    simp [RevisionContextManager.start, hstack]
  refine foldlM_except_preserve _ (fun s2 => s2.stack.tail = f :: rest) ?_ ops _ s1 happly hbase
  intro s2 op s3 hstep hP
  rw [← hP]
  cases op with
  | capture rm obj => exact add_to_context_stack_tail _ _ _ _ hstep
  | capture_eager fuel rm obj =>
    exact add_to_context_eager_stack_tail _ _ _ _ _ _ _ _ hstep
  | append_meta mm => exact add_meta_stack_tail _ _ _ hstep

/-- Witness for C7 at a concrete one-frame state with a meta append and a
deferred capture inside the child scope. -/
theorem child_mutations_preserve_parent_witness :
    (RevisionContextManagerState.stack ⟨[⟨false, false, none, "", false, [], []⟩], []⟩
      = [⟨false, false, none, "", false, [], []⟩]) ∧
    (RevisionContextManager.apply_capture_ops (fun _ _ => "") (fun _ => "")
        (fun _ => [])
        [.append_meta 7,
         .capture ⟨"default", [(0, { model := 0 })]⟩ ⟨0, some 1, ⟨"a", "m"⟩, ⟨"a", "m"⟩, none⟩]
        (RevisionContextManager.start ⟨[⟨false, false, none, "", false, [], []⟩], []⟩ false none)
      = .ok ⟨[⟨false, false, none, "", false,
          [("default", [(("a", "m", "1"),
            Capture.live ⟨0, some 1, ⟨"a", "m"⟩, ⟨"a", "m"⟩, none⟩)])], [7]⟩,
          ⟨false, false, none, "", false, [], []⟩], [(none, 1)]⟩) ∧
    (RevisionContextManagerState.stack ⟨[⟨false, false, none, "", false,
          [("default", [(("a", "m", "1"),
            Capture.live ⟨0, some 1, ⟨"a", "m"⟩, ⟨"a", "m"⟩, none⟩)])], [7]⟩,
          ⟨false, false, none, "", false, [], []⟩], [(none, 1)]⟩).tail
      = [⟨false, false, none, "", false, [], []⟩] := by
  refine ⟨rfl, rfl, ?_⟩
  exact child_mutations_preserve_parent (fun _ _ => "") (fun _ => "") (fun _ => [])
    ⟨[⟨false, false, none, "", false, [], []⟩], []⟩ false none
    [.append_meta 7,
     .capture ⟨"default", [(0, { model := 0 })]⟩ ⟨0, some 1, ⟨"a", "m"⟩, ⟨"a", "m"⟩, none⟩]
    ⟨false, false, none, "", false, [], []⟩ [] _ rfl rfl

/-- Witness for C5 at a concrete state: two captures of the same entity key
collapse to one entry holding the later value. -/
theorem capture_dedup_last_write_wins_witness :
    (RevisionContextManagerState.stack ⟨[⟨false, false, none, "", false, [], []⟩], [(none, 1)]⟩
      = [⟨false, false, none, "", false, [], []⟩]) ∧
    (RevisionManager.get_adapter ⟨"default", [(0, { model := 0 })]⟩ 0 = .ok { model := 0 }) ∧
    (∃ s2 f2 rest2,
      (RevisionContextManager.add_to_context
          ⟨[⟨false, false, none, "", false, [], []⟩], [(none, 1)]⟩
          ⟨"default", [(0, { model := 0 })]⟩
          ⟨0, some 1, ⟨"app", "m"⟩, ⟨"app", "m"⟩, none⟩).bind
        (fun s1 => RevisionContextManager.add_to_context s1
          ⟨"default", [(0, { model := 0 })]⟩
          ⟨0, some 1, ⟨"app", "m"⟩, ⟨"app", "m"⟩, some 3⟩) = .ok s2 ∧
      s2.stack = f2 :: rest2 ∧
      ((dictLookup "default" f2.manager_objects).getD []).countP
        (fun p => decide (p.1 = VersionAdapter.get_version_id { model := 0 }
          ⟨0, some 1, ⟨"app", "m"⟩, ⟨"app", "m"⟩, none⟩)) = 1 ∧
      dictLookup (VersionAdapter.get_version_id { model := 0 }
          ⟨0, some 1, ⟨"app", "m"⟩, ⟨"app", "m"⟩, none⟩)
        ((dictLookup "default" f2.manager_objects).getD [])
        = some (.live ⟨0, some 1, ⟨"app", "m"⟩, ⟨"app", "m"⟩, some 3⟩)) := by
  refine ⟨rfl, rfl, ?_⟩
  exact capture_dedup_last_write_wins
    ⟨[⟨false, false, none, "", false, [], []⟩], [(none, 1)]⟩
    ⟨"default", [(0, { model := 0 })]⟩
    ⟨0, some 1, ⟨"app", "m"⟩, ⟨"app", "m"⟩, none⟩
    ⟨0, some 1, ⟨"app", "m"⟩, ⟨"app", "m"⟩, some 3⟩
    _ [] rfl _ _ rfl rfl rfl (by decide)

/-- C9: the signal receiver adds nothing when no revision is active or the
current frame manages manually; otherwise it dispatches an eager
(pre-serialized) capture when the firing signal is one of the adapter's
`eager_signals`, and a deferred live capture for any other signal. -/
theorem signal_receiver_dispatch
    (serialize_codec : String → Entity → String) (entity_repr : Entity → String)
    (followed_relations : Entity → List Entity) (fuel : Nat)
    (rm : RevisionManager) (s : RevisionContextManagerState) (inst : Entity)
    (signal : Signal) :
    (RevisionContextManager.is_active s = false →
      RevisionContextManager.signal_receiver serialize_codec entity_repr
        followed_relations fuel rm s inst signal = .ok s) ∧
    (∀ f rest, s.stack = f :: rest → f.manage_manually = true →
      RevisionContextManager.signal_receiver serialize_codec entity_repr
        followed_relations fuel rm s inst signal = .ok s) ∧
    (∀ f rest adapter, s.stack = f :: rest → f.manage_manually = false →
      rm.get_adapter inst.cls = .ok adapter →
      RevisionContextManager.signal_receiver serialize_codec entity_repr
          followed_relations fuel rm s inst signal =
        (if signal ∈ adapter.eager_signals then
          RevisionContextManager.add_to_context_eager serialize_codec entity_repr
            followed_relations fuel s rm inst
        else RevisionContextManager.add_to_context s rm inst)) := by
  refine ⟨?_, ?_, ?_⟩
  · intro h
    simp [RevisionContextManager.signal_receiver, h]
  · intro f rest hstack hmm
    obtain ⟨stk, depths⟩ := s
    replace hstack : stk = f :: rest := hstack
    subst hstack
    simp [RevisionContextManager.signal_receiver, RevisionContextManager.is_active,
      RevisionContextManager.is_managing_manually, RevisionContextManager.current_frame,
      hmm, Except.map]
  · intro f rest adapter hstack hmm hada
    obtain ⟨stk, depths⟩ := s
    replace hstack : stk = f :: rest := hstack
    subst hstack
    simp only [RevisionContextManager.signal_receiver, RevisionContextManager.is_active,
      RevisionContextManager.is_managing_manually, RevisionContextManager.current_frame,
      hmm, Except.map, List.isEmpty_cons, Bool.not_false, if_true]
    rw [hada]
    simp

/-- Witness for C9 at a concrete state: a deferred signal on an auto-managed
frame dispatches to `add_to_context`. -/
theorem signal_receiver_dispatch_witness :
    (RevisionContextManagerState.stack ⟨[⟨false, false, none, "", false, [], []⟩], [(none, 1)]⟩
      = [⟨false, false, none, "", false, [], []⟩]) ∧
    (RevisionContextStackFrame.manage_manually ⟨false, false, none, "", false, [], []⟩
      = false) ∧
    (RevisionManager.get_adapter ⟨"default", [(0, { model := 0 })]⟩ 0
      = .ok { model := 0 }) ∧
    (RevisionContextManager.signal_receiver (fun _ _ => "") (fun _ => "") (fun _ => [])
        9 ⟨"default", [(0, { model := 0 })]⟩
        ⟨[⟨false, false, none, "", false, [], []⟩], [(none, 1)]⟩
        ⟨0, some 1, ⟨"a", "m"⟩, ⟨"a", "m"⟩, none⟩ post_save =
      (if post_save ∈ VersionAdapter.eager_signals { model := 0 } then
        RevisionContextManager.add_to_context_eager (fun _ _ => "") (fun _ => "")
          (fun _ => []) 9
          ⟨[⟨false, false, none, "", false, [], []⟩], [(none, 1)]⟩
          ⟨"default", [(0, { model := 0 })]⟩ ⟨0, some 1, ⟨"a", "m"⟩, ⟨"a", "m"⟩, none⟩
      else RevisionContextManager.add_to_context
        ⟨[⟨false, false, none, "", false, [], []⟩], [(none, 1)]⟩
        ⟨"default", [(0, { model := 0 })]⟩ ⟨0, some 1, ⟨"a", "m"⟩, ⟨"a", "m"⟩, none⟩)) := by
  refine ⟨rfl, rfl, rfl, ?_⟩
  exact (signal_receiver_dispatch (fun _ _ => "") (fun _ => "") (fun _ => []) 9
    ⟨"default", [(0, { model := 0 })]⟩
    ⟨[⟨false, false, none, "", false, [], []⟩], [(none, 1)]⟩
    ⟨0, some 1, ⟨"a", "m"⟩, ⟨"a", "m"⟩, none⟩ post_save).2.2
    ⟨false, false, none, "", false, [], []⟩ [] { model := 0 } rfl rfl rfl

/-! Helper lemmas for the relationship follower. -/

theorem followAux_succ_skip {α : Type} [DecidableEq α] (pk : α → Option Nat)
    (rel : α → List α) (fuel : Nat) (obj : α) (acc : List α)
    (hcond : pk obj = none ∨ obj ∈ acc) :
    followAux pk rel (fuel + 1) obj acc = acc := by
  simp only [followAux]
  rw [if_pos hcond]

theorem followAux_succ_go {α : Type} [DecidableEq α] (pk : α → Option Nat)
    (rel : α → List α) (fuel : Nat) (obj : α) (acc : List α)
    (hcond : ¬(pk obj = none ∨ obj ∈ acc)) :
    followAux pk rel (fuel + 1) obj acc
      = (rel obj).foldl (fun acc2 related => followAux pk rel fuel related acc2)
          (obj :: acc) := by
  simp only [followAux]
  rw [if_neg hcond]

/-- A fold whose step extends its accumulator extends its accumulator. -/
theorem foldl_subset {α β : Type} (g : List α → β → List α)
    (hg : ∀ acc b, acc ⊆ g acc b) :
    ∀ (l : List β) (acc : List α), acc ⊆ l.foldl g acc := by
  intro l
  induction l with
  | nil => intro acc x hx; exact hx
  | cons b t ih => intro acc x hx; exact ih (g acc b) (hg acc b hx)

/-- A fold whose step preserves a predicate preserves it. -/
theorem foldl_preserve {γ β : Type} (P : γ → Prop) (g : γ → β → γ)
    (hg : ∀ acc b, P acc → P (g acc b)) :
    ∀ (l : List β) (acc : γ), P acc → P (l.foldl g acc) := by
  intro l
  induction l with
  | nil => intro acc h; exact h
  | cons b t ih => intro acc h; exact ih (g acc b) (hg acc b h)

/-- Membership in a fold comes from the accumulator or from one step. -/
theorem foldl_mem_cases {α β : Type} (g : List α → β → List α) (Q : β → α → Prop)
    (hg : ∀ acc b x, x ∈ g acc b → x ∈ acc ∨ Q b x) :
    ∀ (l : List β) (acc : List α) (x : α),
      x ∈ l.foldl g acc → x ∈ acc ∨ ∃ b ∈ l, Q b x := by
  intro l
  induction l with
  | nil => intro acc x hx; exact Or.inl hx
  | cons b t ih =>
    intro acc x hx
    rcases ih (g acc b) x hx with h | ⟨b1, hb1, hq⟩
    · rcases hg acc b x h with h | h
      · exact Or.inl h
      · exact Or.inr ⟨b, List.mem_cons_self b t, h⟩
    · exact Or.inr ⟨b1, List.mem_cons_of_mem _ hb1, hq⟩

/-- An element of the fold's list on which the step is reflexive lands in the
fold. -/
theorem foldl_mem_of_elem {α : Type} (g : List α → α → List α) (G : α → Prop)
    (hmono : ∀ acc b, acc ⊆ g acc b)
    (hself : ∀ acc b, G b → b ∈ g acc b) :
    ∀ (l : List α) (acc : List α) (b : α), b ∈ l → G b → b ∈ l.foldl g acc := by
  intro l
  induction l with
  | nil => intro acc b hb; cases hb
  | cons c t ih =>
    intro acc b hb hG
    rcases List.mem_cons.mp hb with rfl | hbt
    · exact foldl_subset g hmono t (g acc b) (hself acc b hG)
    · exact ih (g acc c) b hbt hG

/-- Folds of two step functions agree when they agree on accumulators in an
invariant preserved by the first. -/
theorem foldl_congr_inv {γ β : Type} (P : γ → Prop) (g1 g2 : γ → β → γ)
    (hg : ∀ acc b, P acc → g1 acc b = g2 acc b)
    (hP : ∀ acc b, P acc → P (g1 acc b)) :
    ∀ (l : List β) (acc : γ), P acc → l.foldl g1 acc = l.foldl g2 acc := by
  intro l
  induction l with
  | nil => intro acc _; rfl
  | cons b t ih =>
    intro acc h
    simp only [List.foldl_cons]
    rw [← hg acc b h]
    exact ih (g1 acc b) (hP acc b h)

/-- The follower never drops elements of the followed set it was given. -/
theorem followAux_subset {α : Type} [DecidableEq α] (pk : α → Option Nat)
    (rel : α → List α) :
    ∀ (fuel : Nat) (obj : α) (acc : List α), acc ⊆ followAux pk rel fuel obj acc := by
  intro fuel
  induction fuel with
  | zero => intro obj acc x hx; exact hx
  | succ f ih =>
    intro obj acc x hx
    by_cases hcond : pk obj = none ∨ obj ∈ acc
    · rw [followAux_succ_skip pk rel f obj acc hcond]
      exact hx
    · rw [followAux_succ_go pk rel f obj acc hcond]
      exact foldl_subset _ (fun a r => ih r a) (rel obj) (obj :: acc)
        (List.mem_cons_of_mem _ hx)

/-- With any fuel at all, a node with a persisted identity is in its own
follow set. -/
theorem followAux_self_mem {α : Type} [DecidableEq α] (pk : α → Option Nat)
    (rel : α → List α) (fuel : Nat) (obj : α) (acc : List α)
    (hfuel : 1 ≤ fuel) (hpk : pk obj ≠ none) :
    obj ∈ followAux pk rel fuel obj acc := by
  cases fuel with
  | zero => omega
  | succ f =>
    by_cases hcond : pk obj = none ∨ obj ∈ acc
    · rw [followAux_succ_skip pk rel f obj acc hcond]
      rcases hcond with h | h
      · exact absurd h hpk
      · exact h
    · rw [followAux_succ_go pk rel f obj acc hcond]
      exact foldl_subset _ (fun a r => followAux_subset pk rel f r a) (rel obj)
        (obj :: acc) (List.mem_cons_self obj acc)

/-- A step along a followed relation prepended to a reachability chain. -/
theorem reaches_prepend {α : Type} (pk : α → Option Nat) (rel : α → List α)
    (a b x : α) (hpk : pk a ≠ none) (hab : b ∈ rel a)
    (h : Reaches pk rel b x) : Reaches pk rel a x := by
  induction h with
  | refl hb => exact Reaches.tail (Reaches.refl hpk) hab hb
  | tail _ hrel hpkx ih => exact Reaches.tail ih hrel hpkx

/-- Everything the follower collects beyond its starting set is reachable. -/
theorem followAux_sound {α : Type} [DecidableEq α] (pk : α → Option Nat)
    (rel : α → List α) :
    ∀ (fuel : Nat) (obj : α) (acc : List α) (x : α),
      x ∈ followAux pk rel fuel obj acc → x ∈ acc ∨ Reaches pk rel obj x := by
  intro fuel
  induction fuel with
  | zero => intro obj acc x hx; exact Or.inl hx
  | succ f ih =>
    intro obj acc x hx
    by_cases hcond : pk obj = none ∨ obj ∈ acc
    · rw [followAux_succ_skip pk rel f obj acc hcond] at hx
      exact Or.inl hx
    · rw [followAux_succ_go pk rel f obj acc hcond] at hx
      push_neg at hcond
      rcases foldl_mem_cases _ (fun r y => Reaches pk rel r y)
          (fun a r y hy => ih r a y hy) (rel obj) (obj :: acc) x hx with h | ⟨r, hr, hq⟩
      · rcases List.mem_cons.mp h with rfl | hmem
        · exact Or.inr (Reaches.refl hcond.1)
        · exact Or.inl hmem
      · exact Or.inr (reaches_prepend pk rel obj r x hcond.1 hr hq)

/-- The follower preserves freedom from duplicates. -/
theorem followAux_nodup {α : Type} [DecidableEq α] (pk : α → Option Nat)
    (rel : α → List α) :
    ∀ (fuel : Nat) (obj : α) (acc : List α),
      acc.Nodup → (followAux pk rel fuel obj acc).Nodup := by
  intro fuel
  induction fuel with
  | zero => intro obj acc h; exact h
  | succ f ih =>
    intro obj acc h
    by_cases hcond : pk obj = none ∨ obj ∈ acc
    · rw [followAux_succ_skip pk rel f obj acc hcond]
      exact h
    · rw [followAux_succ_go pk rel f obj acc hcond]
      push_neg at hcond
      exact foldl_preserve List.Nodup _ (fun a r hp => ih r a hp) (rel obj) (obj :: acc)
        (List.nodup_cons.mpr ⟨hcond.2, h⟩)

/-- Following a fresh node strictly shrinks the set of unfollowed nodes. -/
theorem freshCard_lt {α : Type} [DecidableEq α] [Fintype α] (obj : α) (acc : List α)
    (h : obj ∉ acc) : freshCard (obj :: acc) < freshCard acc := by
  apply Finset.card_lt_card
  have hsub : Finset.univ.filter (fun x : α => x ∉ obj :: acc)
      ⊆ Finset.univ.filter (fun x : α => x ∉ acc) := by
    intro x hx
    simp only [Finset.mem_filter, List.mem_cons] at hx ⊢
    exact ⟨hx.1, fun hc => hx.2 (Or.inr hc)⟩
  rw [Finset.ssubset_iff_of_subset hsub]
  refine ⟨obj, ?_, ?_⟩
  · simp only [Finset.mem_filter, Finset.mem_univ, true_and]
    exact h
  · simp [List.mem_cons]

/-- A larger followed set leaves no more unfollowed nodes. -/
theorem freshCard_le {α : Type} [DecidableEq α] [Fintype α] (acc acc2 : List α)
    (h : acc ⊆ acc2) : freshCard acc2 ≤ freshCard acc := by
  apply Finset.card_le_card
  intro x hx
  simp only [Finset.mem_filter] at hx ⊢
  exact ⟨hx.1, fun hc => hx.2 (h hc)⟩

/-- With nothing followed yet, every node is unfollowed. -/
theorem freshCard_nil {α : Type} [DecidableEq α] [Fintype α] :
    freshCard ([] : List α) = Fintype.card α := by
  have hfilter : Finset.univ.filter (fun x : α => x ∉ ([] : List α)) = Finset.univ := by
    apply Finset.filter_true_of_mem
    intro x _
    exact List.not_mem_nil x
  unfold freshCard
  rw [hfilter, Finset.card_univ]

/-- With a fresh unfollowed node in hand, at least one node is unfollowed. -/
theorem freshCard_pos {α : Type} [DecidableEq α] [Fintype α] (obj : α) (acc : List α)
    (h : obj ∉ acc) : 0 < freshCard acc := by
  apply Finset.card_pos.mpr
  refine ⟨obj, ?_⟩
  simp only [Finset.mem_filter, Finset.mem_univ, true_and]
  exact h

/-- Every node the follower adds is fully expanded: with enough fuel, each
followed relation of each newly added node with a persisted identity is also
in the result. -/
theorem followAux_expand {α : Type} [DecidableEq α] [Fintype α]
    (pk : α → Option Nat) (rel : α → List α) :
    ∀ (fuel : Nat) (acc : List α) (obj : α), freshCard acc < fuel →
      ∀ v, v ∈ followAux pk rel fuel obj acc → v ∉ acc →
        ∀ w, w ∈ rel v → pk w ≠ none → w ∈ followAux pk rel fuel obj acc := by
  intro fuel
  induction fuel with
  | zero => intro acc obj hcard; omega
  | succ f ih =>
    intro acc obj hcard v hv hvacc w hw hpkw
    by_cases hcond : pk obj = none ∨ obj ∈ acc
    · rw [followAux_succ_skip pk rel f obj acc hcond] at hv
      exact absurd hv hvacc
    · rw [followAux_succ_go pk rel f obj acc hcond] at hv ⊢
      have hcond2 := hcond
      push_neg at hcond2
      obtain ⟨hpkobj, hobjacc⟩ := hcond2
      have hpos := freshCard_pos obj acc hobjacc
      have hbase_lt : freshCard (obj :: acc) < f := by
        have h1 := freshCard_lt obj acc hobjacc
        omega
      have hfold := foldl_preserve
        (fun acc2 => (obj :: acc) ⊆ acc2 ∧
          (∀ u, u ∈ acc2 → u ∉ obj :: acc → ∀ y, y ∈ rel u → pk y ≠ none → y ∈ acc2))
        (fun acc2 r => followAux pk rel f r acc2)
        (fun acc2 r hPacc => by
          have hmono := followAux_subset pk rel f r acc2
          refine ⟨fun x hx => hmono (hPacc.1 hx), ?_⟩
          intro u hu hubase y hy hpky
          by_cases huacc : u ∈ acc2
          · exact hmono (hPacc.2 u huacc hubase y hy hpky)
          · have hcard2 : freshCard acc2 < f :=
              lt_of_le_of_lt (freshCard_le _ _ hPacc.1) hbase_lt
            exact ih acc2 r hcard2 u hu huacc y hy hpky)
        (rel obj) (obj :: acc)
        ⟨List.Subset.refl _, fun u hu hub => absurd hu hub⟩
      by_cases hvbase : v ∈ obj :: acc
      · have hveq : v = obj := by
          rcases List.mem_cons.mp hvbase with h | h
          · exact h
          · exact absurd h hvacc
        subst hveq
        exact foldl_mem_of_elem _ (fun y => pk y ≠ none)
          (fun a r => followAux_subset pk rel f r a)
          (fun a y hG => followAux_self_mem pk rel f y a (by omega) hG)
          (rel v) (v :: acc) w hw hpkw
      · exact hfold.2 v hv hvbase w hw hpkw

/-- With fuel beyond the number of nodes, the follower collects every
reachable node. -/
theorem followAux_complete {α : Type} [DecidableEq α] [Fintype α]
    (pk : α → Option Nat) (rel : α → List α) (root x : α) (fuel : Nat)
    (hfuel : Fintype.card α < fuel) (hreach : Reaches pk rel root x) :
    x ∈ followAux pk rel fuel root [] := by
  have hcard : freshCard ([] : List α) < fuel := by
    rw [freshCard_nil]
    exact hfuel
  induction hreach with
  | refl h => exact followAux_self_mem pk rel fuel root [] (by omega) h
  | tail _ hb hpk ih =>
    exact followAux_expand pk rel fuel [] root hcard _ ih (List.not_mem_nil _) _ hb hpk

/-- One extra unit of fuel beyond the unfollowed-node count changes nothing. -/
theorem followAux_stab {α : Type} [DecidableEq α] [Fintype α]
    (pk : α → Option Nat) (rel : α → List α) :
    ∀ (fuel : Nat) (acc : List α) (obj : α), freshCard acc < fuel →
      followAux pk rel (fuel + 1) obj acc = followAux pk rel fuel obj acc := by
  intro fuel
  induction fuel with
  | zero => intro acc obj h; omega
  | succ f ih =>
    intro acc obj hcard
    by_cases hcond : pk obj = none ∨ obj ∈ acc
    · rw [followAux_succ_skip pk rel (f + 1) obj acc hcond,
        followAux_succ_skip pk rel f obj acc hcond]
    · rw [followAux_succ_go pk rel (f + 1) obj acc hcond,
        followAux_succ_go pk rel f obj acc hcond]
      have hcond2 := hcond
      push_neg at hcond2
      obtain ⟨hpk, hmem⟩ := hcond2
      have h1 : freshCard (obj :: acc) < f := by
        have := freshCard_lt obj acc hmem
        omega
      exact foldl_congr_inv (fun acc2 => (obj :: acc) ⊆ acc2)
        (fun acc2 r => followAux pk rel (f + 1) r acc2)
        (fun acc2 r => followAux pk rel f r acc2)
        (fun acc2 r hsub => ih acc2 r (lt_of_le_of_lt (freshCard_le _ _ hsub) h1))
        (fun acc2 r hsub x hx => followAux_subset pk rel (f + 1) r acc2 (hsub hx))
        (rel obj) (obj :: acc) (List.Subset.refl _)

/-- Fuel beyond the node count plus one is interchangeable. -/
theorem followAux_stab_add {α : Type} [DecidableEq α] [Fintype α]
    (pk : α → Option Nat) (rel : α → List α) (root : α) :
    ∀ k, followAux pk rel (Fintype.card α + 1 + k) root []
      = followAux pk rel (Fintype.card α + 1) root [] := by
  intro k
  induction k with
  | zero => rfl
  | succ j ih =>
    have heq : Fintype.card α + 1 + (j + 1) = (Fintype.card α + 1 + j) + 1 := rfl
    rw [heq, followAux_stab pk rel (Fintype.card α + 1 + j) [] root
      (by rw [freshCard_nil]; omega), ih]

/-- C6: on a finite node type (every relation graph over it is finite, cycles
included), `_follow_relationships` terminates — all fuels past the node count
plus one give the same answer, so the modelled recursion bottoms out — and
returns a duplicate-free list containing exactly the nodes reachable from the
root through followed relations, where a node with no persisted identity
(`pk is None`) or an already-followed node ends its branch. -/
theorem follow_relationships_cycle_safe {α : Type} [DecidableEq α] [Fintype α]
    (pk : α → Option Nat) (rel : α → List α) (root : α) :
    (∀ fuel, Fintype.card α + 1 ≤ fuel →
      follow_relationships pk rel fuel root
        = follow_relationships pk rel (Fintype.card α + 1) root) ∧
    (follow_relationships pk rel (Fintype.card α + 1) root).Nodup ∧
    (∀ x, x ∈ follow_relationships pk rel (Fintype.card α + 1) root
      ↔ Reaches pk rel root x) := by
  refine ⟨?_, ?_, ?_⟩
  · intro fuel hf
    obtain ⟨k, rfl⟩ : ∃ k, fuel = Fintype.card α + 1 + k :=
      ⟨fuel - (Fintype.card α + 1), by omega⟩
    exact followAux_stab_add pk rel root k
  · exact followAux_nodup pk rel _ root [] List.nodup_nil
  · intro x
    constructor
    · intro hx
      rcases followAux_sound pk rel _ root [] x hx with h | h
      · cases h
      · exact h
    · intro hx
      exact followAux_complete pk rel root x _ (by omega) hx

/-- Witness for C6 on a concrete two-node cycle (`0 → 1 → 0`, both nodes with
a persisted identity): the follower stabilizes and returns a duplicate-free
list containing both nodes. -/
theorem follow_relationships_cycle_safe_witness :
    (Fintype.card (Fin 2) + 1 ≤ 9) ∧
    (follow_relationships (fun _ : Fin 2 => some 0) (fun i => [i + 1]) 9 0
      = follow_relationships (fun _ : Fin 2 => some 0) (fun i => [i + 1])
          (Fintype.card (Fin 2) + 1) 0) ∧
    (follow_relationships (fun _ : Fin 2 => some 0) (fun i => [i + 1])
        (Fintype.card (Fin 2) + 1) 0).Nodup ∧
    (0 : Fin 2) ∈ follow_relationships (fun _ : Fin 2 => some 0) (fun i => [i + 1])
        (Fintype.card (Fin 2) + 1) 0 ∧
    (1 : Fin 2) ∈ follow_relationships (fun _ : Fin 2 => some 0) (fun i => [i + 1])
        (Fintype.card (Fin 2) + 1) 0 :=
  ⟨by decide,
    (follow_relationships_cycle_safe (fun _ : Fin 2 => some 0) (fun i => [i + 1]) 0).1 9
      (by decide),
    (follow_relationships_cycle_safe (fun _ : Fin 2 => some 0) (fun i => [i + 1]) 0).2.1,
    by decide, by decide⟩

/-- A monadic fold over `Except RevisionError` whose steps preserve an
invariant and never raise the no-active-scope error under it never raises the
no-active-scope error. -/
theorem foldlM_no_rm_error {σ β : Type} (g : σ → β → Except RevisionError σ)
    (P : σ → Prop)
    (hok : ∀ s b s1, g s b = .ok s1 → P s → P s1)
    (herr : ∀ s b msg, P s → g s b ≠ .error (.revisionManagement msg)) :
    ∀ (l : List β) (s : σ), P s →
      RevisionContextManager.is_no_active_error (l.foldlM g s) = false := by
  intro l
  induction l with
  | nil => intro s _; rfl
  | cons b t ih =>
    intro s hP
    rw [List.foldlM_cons]
    cases hgb : g s b with
    | error e =>
      cases e with
      | revisionManagement msg => exact absurd hgb (herr s b msg hP)
      | registration msg => rfl
    | ok s1 => exact ih s1 (hok s b s1 hgb hP)

/-- C8 (counterexample): on an empty stack, a capture call whose entity type is
unregistered fails with `RegistrationError` — the adapter lookup comes first in
the source — not with the no-active-scope `RevisionManagementError`, so "fails
with RevisionManagementError if and only if the stack is empty" is false for
capture calls. -/
theorem capture_on_empty_stack_not_rm_error :
    (RevisionContextManagerState.stack ⟨[], []⟩ = []) ∧
    RevisionContextManager.add_to_context ⟨[], []⟩ ⟨"default", []⟩
        ⟨0, some 1, ⟨"a", "m"⟩, ⟨"a", "m"⟩, none⟩
      = .error (.registration "0 has not been registered with django-reversion") ∧
    RevisionContextManager.is_no_active_error
      (RevisionContextManager.add_to_context ⟨[], []⟩ ⟨"default", []⟩
        ⟨0, some 1, ⟨"a", "m"⟩, ⟨"a", "m"⟩, none⟩) = false :=
  ⟨rfl, rfl, rfl⟩

/-- C8 (amended): the current-frame accessors and mutators (manual-management
query, invalidated query, get/set user, get/set comment, get/set
duplicate-suppression, metadata append) fail with the no-active-scope
`RevisionManagementError` exactly when the stack is empty, and on a non-empty
stack operate on the top frame.  Capture calls signal `RevisionManagementError`
only when the stack is empty; on an empty stack, a registered type does produce
that failure (and an eager capture of a saved root of registered types does
too), but an unregistered type fails with `RegistrationError` instead, since
the adapter lookup precedes the frame access. -/
theorem no_active_scope_error_iff (s : RevisionContextManagerState) :
    (RevisionContextManager.is_no_active_error (RevisionContextManager.is_managing_manually s)
      = s.stack.isEmpty) ∧
    (RevisionContextManager.is_no_active_error (RevisionContextManager.is_invalid s)
      = s.stack.isEmpty) ∧
    (RevisionContextManager.is_no_active_error (RevisionContextManager.get_user s)
      = s.stack.isEmpty) ∧
    (∀ u, RevisionContextManager.is_no_active_error (RevisionContextManager.set_user s u)
      = s.stack.isEmpty) ∧
    (RevisionContextManager.is_no_active_error (RevisionContextManager.get_comment s)
      = s.stack.isEmpty) ∧
    (∀ c, RevisionContextManager.is_no_active_error (RevisionContextManager.set_comment s c)
      = s.stack.isEmpty) ∧
    (RevisionContextManager.is_no_active_error
      (RevisionContextManager.get_ignore_duplicates s) = s.stack.isEmpty) ∧
    (∀ b, RevisionContextManager.is_no_active_error
      (RevisionContextManager.set_ignore_duplicates s b) = s.stack.isEmpty) ∧
    (∀ m, RevisionContextManager.is_no_active_error (RevisionContextManager.add_meta s m)
      = s.stack.isEmpty) ∧
    (∀ f rest, s.stack = f :: rest →
      RevisionContextManager.is_managing_manually s = .ok f.manage_manually ∧
      RevisionContextManager.is_invalid s = .ok f.is_invalid ∧
      RevisionContextManager.get_user s = .ok f.user ∧
      (∀ u, RevisionContextManager.set_user s u
        = .ok ⟨{ f with user := u } :: rest, s.db_depths⟩) ∧
      RevisionContextManager.get_comment s = .ok f.comment ∧
      (∀ c, RevisionContextManager.set_comment s c
        = .ok ⟨{ f with comment := c } :: rest, s.db_depths⟩) ∧
      RevisionContextManager.get_ignore_duplicates s = .ok f.ignore_duplicates ∧
      (∀ b, RevisionContextManager.set_ignore_duplicates s b
        = .ok ⟨{ f with ignore_duplicates := b } :: rest, s.db_depths⟩) ∧
      (∀ m, RevisionContextManager.add_meta s m
        = .ok ⟨{ f with meta := f.meta ++ [m] } :: rest, s.db_depths⟩)) ∧
    (∀ rm obj, RevisionContextManager.is_no_active_error
        (RevisionContextManager.add_to_context s rm obj) = true → s.stack = []) ∧
    (∀ rm obj adapter, s.stack = [] → rm.get_adapter obj.cls = .ok adapter →
      RevisionContextManager.add_to_context s rm obj
        = .error (.revisionManagement RevisionContextManager.no_active_msg)) ∧
    (∀ sc er fr fuel rm obj, RevisionContextManager.is_no_active_error
        (RevisionContextManager.add_to_context_eager sc er fr fuel s rm obj) = true →
      s.stack = []) ∧
    (∀ sc er fr fuel rm (obj : Entity), s.stack = [] → obj.pk ≠ none → 1 ≤ fuel →
      (∀ e : Entity, e ∈ follow_relationships (fun e2 => e2.pk) fr fuel obj →
        ∃ a, rm.get_adapter e.cls = .ok a) →
      RevisionContextManager.add_to_context_eager sc er fr fuel s rm obj
        = .error (.revisionManagement RevisionContextManager.no_active_msg)) := by
  obtain ⟨stk, depths⟩ := s
  cases stk with
  | nil =>
    refine ⟨rfl, rfl, rfl, fun _ => rfl, rfl, fun _ => rfl, rfl, fun _ => rfl, fun _ => rfl,
      ?_, ?_, ?_, ?_, ?_⟩
    · intro f rest h
      cases h
    · intro rm obj _
      rfl
    · intro rm obj adapter _ hada
      unfold RevisionContextManager.add_to_context
      rw [hada]
    · intro sc er fr fuel rm obj _
      rfl
    · intro sc er fr fuel rm obj _ hpk hfuel hreg
      have hmem : obj ∈ follow_relationships (fun e => e.pk) fr fuel obj :=
        followAux_self_mem _ fr fuel obj [] hfuel hpk
      unfold RevisionContextManager.add_to_context_eager
      cases hL : follow_relationships (fun e => e.pk) fr fuel obj with
      | nil =>
        rw [hL] at hmem
        cases hmem
      | cons e1 t =>
        have hmem1 : e1 ∈ follow_relationships (fun e2 => e2.pk) fr fuel obj := by
          rw [hL]
          exact List.mem_cons_self e1 t
        obtain ⟨a1, ha1⟩ := hreg e1 hmem1
        rw [List.foldlM_cons, ha1]
        rfl
  | cons f0 rest0 =>
    refine ⟨rfl, rfl, rfl, fun _ => rfl, rfl, fun _ => rfl, rfl, fun _ => rfl, fun _ => rfl,
      ?_, ?_, ?_, ?_, ?_⟩
    · intro f rest h
      cases h
      exact ⟨rfl, rfl, rfl, fun _ => rfl, rfl, fun _ => rfl, rfl, fun _ => rfl, fun _ => rfl⟩
    · intro rm obj hcontra
      unfold RevisionContextManager.add_to_context at hcontra
      unfold RevisionManager.get_adapter at hcontra
      cases hdl : dictLookup obj.cls rm.registered_models with
      | none =>
        rw [hdl] at hcontra
        simp [RevisionContextManager.is_no_active_error] at hcontra
      | some adapter =>
        rw [hdl] at hcontra
        simp [RevisionContextManager.is_no_active_error] at hcontra
    · intro rm obj adapter h
      cases h
    · intro sc er fr fuel rm obj hcontra
      have hfalse : RevisionContextManager.is_no_active_error
          (RevisionContextManager.add_to_context_eager sc er fr fuel
            ⟨f0 :: rest0, depths⟩ rm obj) = false := by
        unfold RevisionContextManager.add_to_context_eager
        refine foldlM_no_rm_error _
          (fun s1 : RevisionContextManagerState => s1.stack ≠ []) ?_ ?_ _ _ ?_
        · intro s1 b s2 hstep hP
          split at hstep
          · cases hstep
          · split at hstep
            · cases hstep
            · cases hstep
              simp
        · intro s1 b msg hP hstep
          split at hstep
          · rename_i e heq
            unfold RevisionManager.get_adapter at heq
            split at heq
            · cases heq
            · cases heq
              simp at hstep
          · split at hstep
            · rename_i heq2
              exact hP heq2
            · cases hstep
        · exact List.cons_ne_nil f0 rest0
      rw [hcontra] at hfalse
      cases hfalse
    · intro sc er fr fuel rm obj h
      cases h

/-- Witness for C8 at concrete states: on an empty stack the
manual-management query fails with the no-active-scope error; on a one-frame
stack it reads the top frame; and an eager capture of a saved entity of a
registered type on an empty stack fails with the no-active-scope error. -/
theorem no_active_scope_error_iff_witness :
    (RevisionContextManager.is_no_active_error (RevisionContextManager.is_managing_manually
      ⟨[], []⟩) = true) ∧
    (RevisionContextManagerState.stack ⟨[⟨true, false, none, "", false, [], []⟩], []⟩
      = [⟨true, false, none, "", false, [], []⟩]) ∧
    (RevisionContextManager.is_managing_manually
      ⟨[⟨true, false, none, "", false, [], []⟩], []⟩ = .ok true) ∧
    (RevisionContextManager.add_to_context_eager (fun _ _ => "") (fun _ => "")
      (fun _ => []) 1 ⟨[], []⟩ ⟨"default", [(0, { model := 0 })]⟩
      ⟨0, some 1, ⟨"a", "m"⟩, ⟨"a", "m"⟩, none⟩
      = .error (.revisionManagement RevisionContextManager.no_active_msg)) :=
  ⟨(no_active_scope_error_iff ⟨[], []⟩).1.trans rfl, rfl,
    ((no_active_scope_error_iff ⟨[⟨true, false, none, "", false, [], []⟩], []⟩
      ).2.2.2.2.2.2.2.2.2.1 ⟨true, false, none, "", false, [], []⟩ [] rfl).1,
    (no_active_scope_error_iff ⟨[], []⟩).2.2.2.2.2.2.2.2.2.2.2.2.2
      (fun _ _ => "") (fun _ => "") (fun _ => []) 1 ⟨"default", [(0, { model := 0 })]⟩
      ⟨0, some 1, ⟨"a", "m"⟩, ⟨"a", "m"⟩, none⟩ rfl (by decide) (by decide)
      (by
        intro e he
        have he2 : e ∈ [(⟨0, some 1, ⟨"a", "m"⟩, ⟨"a", "m"⟩, none⟩ : Entity)] := he
        rcases List.mem_singleton.mp he2 with rfl
        exact ⟨{ model := 0 }, rfl⟩)⟩

end Reversion
